import Mathlib

/-!
Verification of the cdpnetool interception engine against its specification.

The Go sources are shallowly embedded: pure functions become Lean functions,
stateful code becomes explicit state passing, machine integers (int, int64)
become Int (overflow is not modelled: the counters and sizes involved stay far
below 2^63 in every stated property), Go strings become Lean String where the
code treats them as text and List Nat (byte values) where the code treats them
as raw bytes, Go maps become association lists with last-write-wins update, and
fallible operations return Option.

Impure or external-library operations that the embedded code calls (regexp
matching, rand.Float64, time.Now, encoding/json, net/url, the CDP client) are
passed in as an explicit Ext record of oracles, so every embedded function
stays total and executable while remaining faithful to the structure of the
source.
-/

namespace Cdpnetool

/-! ## Generic helpers: association lists, strings, bytes -/

/-- Look up the value bound to a key in an association list (Go map read). -/
def lookupA {β : Type} (l : List (String × β)) (k : String) : Option β :=
  match l with
  | [] => none
  | (k1, v1) :: rest => if k1 = k then some v1 else lookupA rest k

/-- Insert or overwrite a binding (Go map write, last write wins). -/
def setA {β : Type} (l : List (String × β)) (k : String) (v : β) : List (String × β) :=
  match l with
  | [] => [(k, v)]
  | (k1, v1) :: rest => if k1 = k then (k, v) :: rest else (k1, v1) :: setA rest k v

/-- Delete the binding for an exact key (Go map delete). -/
def eraseA {β : Type} (l : List (String × β)) (k : String) : List (String × β) :=
  match l with
  | [] => []
  | (k1, v1) :: rest => if k1 = k then eraseA rest k else (k1, v1) :: eraseA rest k

/-- Sum of the Int values of an association list. -/
def sumVals (l : List (String × Int)) : Int :=
  (l.map Prod.snd).sum

/-- Increment the counter stored under a key, starting from 0 when absent
(Go: m[k] = m[k] + 1, with the zero-value read of a missing key). -/
def bumpA (l : List (String × Int)) (k : String) : List (String × Int) :=
  match l with
  | [] => [(k, 1)]
  | (k1, v1) :: rest => if k1 = k then (k1, v1 + 1) :: rest else (k1, v1) :: bumpA rest k

/-- ASCII lowercasing of a string (models strings.ToLower on the ASCII inputs
the rule engine deals with). All string helpers below work on the character
list underlying the string, so they evaluate by kernel reduction. -/
def lowerS (s : String) : String :=
  String.mk (s.data.map Char.toLower)

/-- Case-insensitive string equality (models strings.EqualFold). -/
def equalFold (a b : String) : Bool :=
  lowerS a = lowerS b

/-- Does one character list start with another? -/
def startsWithL {α : Type} [DecidableEq α] : List α → List α → Bool
  | _, [] => true
  | [], _ :: _ => false
  | a :: s, b :: t => if a = b then startsWithL s t else false

/-- Substring containment on character lists. -/
def containsL {α : Type} [DecidableEq α] : List α → List α → Bool
  | l, sub =>
    if startsWithL l sub then true
    else match l with
      | [] => false
      | _ :: t => containsL t sub

/-- Models strings.Contains (UTF-8 self-synchronization makes the byte-level Go
search and this rune-level search agree on valid UTF-8 text). -/
def strContains (s sub : String) : Bool :=
  containsL s.data sub.data

/-- strings.HasPrefix. -/
def startsWithS (s pre : String) : Bool :=
  startsWithL s.data pre.data

/-- strings.HasSuffix. -/
def endsWithS (s suf : String) : Bool :=
  startsWithL s.data.reverse suf.data.reverse

/-- strings.TrimSpace (ASCII and common Unicode whitespace). -/
def trimS (s : String) : String :=
  String.mk (((s.data.dropWhile Char.isWhitespace).reverse.dropWhile Char.isWhitespace).reverse)

/-- Drop the first n characters (strings here are ASCII at the call sites, so
rune and byte positions agree). -/
def dropS (s : String) (n : Nat) : String :=
  String.mk (s.data.drop n)

/-- Drop the last character. -/
def dropRight1S (s : String) : String :=
  String.mk s.data.dropLast

/-- Splitting scan for strings.Split with a non-empty separator; the fuel is
the input length, which the scan never exhausts. -/
def splitOnL {α : Type} [DecidableEq α] (sep : List α) : Nat → List α → List α → List (List α)
  | 0, acc, l => [acc.reverse ++ l]
  | _ + 1, acc, [] => [acc.reverse]
  | fuel + 1, acc, a :: t =>
    if startsWithL (a :: t) sep then
      acc.reverse :: splitOnL sep fuel [] (List.drop (sep.length - 1) t)
    else splitOnL sep fuel (a :: acc) t

/-- strings.Split (every separator in this code base is non-empty). -/
def splitOnS (s sep : String) : List String :=
  if sep.isEmpty then [s]
  else (splitOnL sep.data s.data.length [] s.data).map String.mk

/-- strings.Join. -/
def joinS (sep : String) (xs : List String) : String :=
  String.mk (List.intercalate sep.data (xs.map String.data))

/-- strings.SplitN(s, sep, 2): split at the first occurrence of the
separator only. -/
def splitN2 (s sep : String) : List String :=
  match splitOnS s sep with
  | [] => [s]
  | p :: rest => if rest.isEmpty then [p] else [p, joinS sep rest]

/-- UTF-8 bytes of a single character. -/
def charUtf8 (c : Char) : List Nat :=
  let n := c.toNat
  if n < 128 then [n]
  else if n < 2048 then [192 + n / 64, 128 + n % 64]
  else if n < 65536 then [224 + n / 4096, 128 + (n / 64) % 64, 128 + n % 64]
  else [240 + n / 262144, 128 + (n / 4096) % 64, 128 + (n / 64) % 64, 128 + n % 64]

/-- UTF-8 bytes of a string (a Go string value viewed as raw bytes). -/
def strBytes (s : String) : List Nat :=
  s.data.foldr (fun c acc => charUtf8 c ++ acc) []

/-- Byte length of a string (Go len(s) on a string). -/
def goLen (s : String) : Nat :=
  s.utf8ByteSize

/-! ## JSON values

Bodies manipulated as JSON are represented by this sum type. Go unmarshals
numbers to float64; the properties verified here never touch fractional
numbers, so numbers are carried as Int (formatFloat prints integral floats
exactly as their decimal integer text, which toString matches). -/

inductive Json where
  | null : Json
  | bool (b : Bool) : Json
  | num (n : Int) : Json
  | str (s : String) : Json
  | arr (elems : List Json) : Json
  | obj (fields : List (String × Json)) : Json

/-! ## External-world oracles

All impure or external-library calls made by the embedded code are collected
here, so the embedded functions are total functions of (inputs, Ext). -/

structure Ext where
  /-- regexCache.Get(pattern) + MatchString(s); compile failure is folded in
  as an arbitrary false/true answer chosen by the oracle. -/
  regexMatch : String → String → Bool
  /-- The probability condition: strconv.ParseFloat on the value, clamping to
  [0,1] and comparing rand.Float64() against it, collapsed to one draw. -/
  probSample : String → Bool
  /-- time.Now().Hour()*60 + Minute(). -/
  nowMinutes : Int
  /-- encoding/json.Unmarshal of a text body into a dynamic value. -/
  parseJsonS : String → Option Json
  /-- encoding/json.Marshal of a dynamic value to text. -/
  marshalJsonS : Json → String
  /-- encoding/json.Unmarshal of a byte body. -/
  parseJsonB : List Nat → Option Json
  /-- encoding/json.Marshal to bytes. -/
  marshalJsonB : Json → List Nat
  /-- url.Parse(raw) followed by u.Query(): none models a parse error. -/
  queryOf : String → Option (List (String × List String))
  /-- u.RawQuery = q.Encode(); u.String(): rebuild a URL with new query
  values. -/
  urlWithQuery : String → List (String × List String) → String
  /-- url.ParseQuery on a form body (errors ignored by the source, partial
  results kept, hence total). -/
  parseQueryB : List Nat → List (String × List String)
  /-- url.Values.Encode() of form values back to a byte body. -/
  encodeQueryB : List (String × List String) → List Nat
  /-- Go string(b): adopting raw bytes as a string value (Lean String is
  UTF-8-only, so the byte-to-text view is an oracle). -/
  bytesToString : List Nat → String

/-- A trivially-valued oracle bundle, used to instantiate witnesses. -/
def extUnit : Ext where
  regexMatch := fun _ _ => false
  probSample := fun _ => false
  nowMinutes := 0
  parseJsonS := fun _ => none
  marshalJsonS := fun _ => ""
  parseJsonB := fun _ => none
  marshalJsonB := fun _ => []
  queryOf := fun _ => none
  urlWithQuery := fun u _ => u
  parseQueryB := fun _ => []
  encodeQueryB := fun _ => []
  bytesToString := fun _ => ""

/-! ## Small parsers shared by the engine (engine.go / internal/rules) -/

/-- parseInt64: digit-only base-10 parse; note the source accepts the empty
string and yields 0. -/
def parseInt64 (s : String) : Option Int :=
  parseInt64Go s.data 0
where parseInt64Go : List Char → Int → Option Int
  | [], n => some n
  | c :: rest, n =>
    if c.toNat < 48 || 57 < c.toNat then none
    else parseInt64Go rest (n * 10 + ((c.toNat : Int) - 48))

/-- strconv.Atoi restricted to the small inputs the engine feeds it: an
optional sign followed by at least one digit. -/
def goAtoi (s : String) : Option Int :=
  match s.data with
  | [] => none
  | c :: rest =>
    if c = '+' then goAtoiDigits rest 0
    else if c = '-' then (goAtoiDigits rest 0).map (fun n => -n)
    else goAtoiDigits (c :: rest) 0
where goAtoiDigits : List Char → Int → Option Int
  | [], _ => none
  | [c], n =>
    if c.toNat < 48 || 57 < c.toNat then none
    else some (n * 10 + ((c.toNat : Int) - 48))
  | c :: c2 :: rest, n =>
    if c.toNat < 48 || 57 < c.toNat then none
    else goAtoiDigits (c2 :: rest) (n * 10 + ((c.toNat : Int) - 48))

/-- One replacement pass with an explicit fuel bound (the fuel is set to the
input length, which the recursion never exhausts since every step consumes at
least one element). -/
def replaceAllCore {α : Type} [DecidableEq α] (old new : List α) : Nat → List α → List α
  | 0, l => l
  | _ + 1, [] => []
  | fuel + 1, a :: t =>
    if (!old.isEmpty) && startsWithL (a :: t) old then
      new ++ replaceAllCore old new fuel (List.drop (old.length - 1) t)
    else
      a :: replaceAllCore old new fuel t

/-- strings.ReplaceAll on element lists. With an empty pattern Go inserts the
replacement before every element and at the end. -/
def replaceAllL {α : Type} [DecidableEq α] (s old new : List α) : List α :=
  if old.isEmpty then s.foldr (fun a acc => new ++ a :: acc) new
  else replaceAllCore old new s.length s

/-- strings.Replace with n = 1: replace the first occurrence only. -/
def replaceOnceCore {α : Type} [DecidableEq α] (old new : List α) : List α → List α
  | [] => []
  | a :: t =>
    if startsWithL (a :: t) old then new ++ List.drop (old.length - 1) t
    else a :: replaceOnceCore old new t

/-- strings.Replace with count 1 (an empty pattern inserts at the start). -/
def replaceOnceL {α : Type} [DecidableEq α] (s old new : List α) : List α :=
  if old.isEmpty then new ++ s
  else replaceOnceCore old new s

/-- strings.ReplaceAll on strings (patterns here are ASCII, where the Go
byte-level scan and this rune-level scan agree). -/
def replaceAllS (s old new : String) : String :=
  String.mk (replaceAllL s.data old.data new.data)

/-- JSON Pointer token unescaping: ~1 then ~0 (RFC 6901). -/
def unescapeTok (t : String) : String :=
  replaceAllS (replaceAllS t "~1" "/") "~0" "~"

/-- splitPtr: tokens of a JSON Pointer, unescaped; the source scanner drops a
trailing empty token, which the dropLast branch reproduces. -/
def splitPtr (p : String) : List String :=
  let ts := (splitOnS (dropS p 1) "/").map unescapeTok
  if endsWithS p "/" then ts.dropLast else ts

/-- toIndex: digit-only array index parse, empty rejected. -/
def toIndex (s : String) : Option Nat :=
  match s.data with
  | [] => none
  | l => toIndexGo l 0
where toIndexGo : List Char → Nat → Option Nat
  | [], n => some n
  | c :: rest, n =>
    if c.toNat < 48 || 57 < c.toNat then none
    else toIndexGo rest (n * 10 + (c.toNat - 48))

/-- Navigation step of jsonPointer over the parsed document. -/
def ptrNav : Json → List String → Option Json
  | cur, [] => some cur
  | Json.obj fields, t :: rest =>
    match lookupA fields t with
    | none => none
    | some child => ptrNav child rest
  | Json.arr elems, t :: rest =>
    match toIndex t with
    | none => none
    | some idx =>
      match elems.get? idx with
      | none => none
      | some child => ptrNav child rest
  | _, _ :: _ => none

/-- Stringification of the leaf reached by jsonPointer (formatFloat prints the
integral numbers modelled here as plain decimal text; other shapes go through
json.Marshal, which cannot fail on unmarshalled values). -/
def jsonLeaf (ext : Ext) : Json → String
  | Json.str s => s
  | Json.num n => toString n
  | Json.bool true => "true"
  | Json.bool false => "false"
  | x => ext.marshalJsonS x

/-- jsonPointer from engine.go: parse the body, walk the pointer, print the
leaf. -/
def jsonPointer (ext : Ext) (body ptr : String) : Option String :=
  match ext.parseJsonS body with
  | none => none
  | some v =>
    if ptr = "" || !(startsWithS ptr "/") then none
    else
      match ptrNav v (splitPtr ptr) with
      | none => none
      | some leaf => some (jsonLeaf ext leaf)

/-- glob: wildcard match supporting a single leading or trailing star. -/
def glob (s pat : String) : Bool :=
  if pat = "*" then true
  else if startsWithS pat "*" && endsWithS s (dropS pat 1) then true
  else if endsWithS pat "*" && startsWithS s (dropRight1S pat) then true
  else s = pat

/-! ## Rule engine (internal/rules/engine.go)

Condition, Match and Rule mirror the rulespec types the engine evaluates.
The Action payload attached to a rule is carried through Eval as an opaque
pointer and never inspected by the engine, so it is not part of the state
model: Eval returns the chosen rule id, which is all the statistics use. -/

structure Condition where
  type : String := ""
  mode : String := ""
  pattern : String := ""
  values : List String := []
  key : String := ""
  op : String := ""
  value : String := ""
  pointer : String := ""

structure Match where
  allOf : List Condition := []
  anyOf : List Condition := []
  noneOf : List Condition := []

structure Rule where
  id : String := ""
  name : String := ""
  priority : Int := 0
  mode : String := ""
  matchSpec : Match := {}

structure RuleSet where
  version : String := ""
  rules : List Rule := []

/-- The evaluation context built by the CDP manager for one paused event. -/
structure Ctx where
  url : String := ""
  method : String := ""
  headers : List (String × String) := []
  query : List (String × String) := []
  cookies : List (String × String) := []
  body : String := ""
  contentType : String := ""
  stage : String := ""

/-- cond: evaluate a single condition against the context (engine.go). -/
def cond (ext : Ext) (ctx : Ctx) (c : Condition) : Bool :=
  match c.type with
  | "url" =>
    match c.mode with
    | "prefix" => startsWithS ctx.url c.pattern
    | "regex" => ext.regexMatch ctx.url c.pattern
    | "exact" => ctx.url = c.pattern
    | _ => glob ctx.url c.pattern
  | "method" => c.values.any (fun v => equalFold ctx.method v)
  | "header" =>
    match lookupA ctx.headers c.key with
    | none => false
    | some v =>
      match c.op with
      | "equals" => v = c.value
      | "contains" => strContains v c.value
      | "regex" => ext.regexMatch v c.value
      | _ => true
  | "query" =>
    match lookupA ctx.query c.key with
    | none => false
    | some v =>
      match c.op with
      | "equals" => v = c.value
      | "contains" => strContains v c.value
      | "regex" => ext.regexMatch v c.value
      | _ => true
  | "cookie" =>
    match lookupA ctx.cookies c.key with
    | none => false
    | some v =>
      match c.op with
      | "equals" => v = c.value
      | "contains" => strContains v c.value
      | "regex" => ext.regexMatch v c.value
      | _ => true
  | "text" =>
    if ctx.body = "" then false
    else
      match c.op with
      | "equals" => ctx.body = c.value
      | "contains" => strContains ctx.body c.value
      | "regex" => ext.regexMatch ctx.body c.value
      | _ => true
  | "mime" =>
    let s := lowerS ctx.contentType
    let p := lowerS c.pattern
    match c.mode with
    | "exact" => s = p
    | _ => startsWithS s p
  | "size" =>
    let nOpt : Option Int :=
      if ctx.body ≠ "" then some (goLen ctx.body : Int)
      else
        match lookupA ctx.headers "content-length" with
        | some v => parseInt64 v
        | none => none
    match nOpt with
    | none => false
    | some n =>
      match c.op with
      | "lt" => match parseInt64 c.value with | none => false | some x => n < x
      | "lte" => match parseInt64 c.value with | none => false | some x => n ≤ x
      | "gt" => match parseInt64 c.value with | none => false | some x => x < n
      | "gte" => match parseInt64 c.value with | none => false | some x => x ≤ n
      | "equals" => match parseInt64 c.value with | none => false | some x => n = x
      | "between" =>
        match splitN2 c.value ":" with
        | [s1, s2] =>
          match parseInt64 (trimS s1), parseInt64 (trimS s2) with
          | some a, some b =>
            if b < a then b ≤ n ∧ n ≤ a else a ≤ n ∧ n ≤ b
          | _, _ => false
        | _ => false
      | _ => true
  | "probability" => ext.probSample c.value
  | "time_window" =>
    match splitN2 c.value "-" with
    | [s1, s2] =>
      match timeWindowMin (trimS s1), timeWindowMin (trimS s2) with
      | some a, some b =>
        if a ≤ b then a ≤ ext.nowMinutes ∧ ext.nowMinutes ≤ b
        else a ≤ ext.nowMinutes ∨ ext.nowMinutes ≤ b
      | _, _ => false
    | _ => false
  | "json_pointer" =>
    if ctx.body = "" then false
    else
      match jsonPointer ext ctx.body c.pointer with
      | none => false
      | some s =>
        match c.op with
        | "equals" => s = c.value
        | "contains" => strContains s c.value
        | "regex" => ext.regexMatch s c.value
        | _ => true
  | "stage" =>
    if c.value = "" then false
    else
      let v := lowerS c.value
      let s := lowerS ctx.stage
      if s = "" then false else s = v
  | _ => false
where
  /-- The toMin closure of the time_window case: HH:MM to minutes. -/
  timeWindowMin (s : String) : Option Int :=
    match splitN2 s ":" with
    | [hs, ms] =>
      match goAtoi hs, goAtoi ms with
      | some h, some m =>
        if h < 0 ∨ 23 < h ∨ m < 0 ∨ 59 < m then none else some (h * 60 + m)
      | _, _ => none
    | _ => none

/-- allOf: every condition must hold. -/
def allOfB (ext : Ext) (ctx : Ctx) : List Condition → Bool
  | [] => true
  | c :: rest => if cond ext ctx c then allOfB ext ctx rest else false

/-- anyOf: at least one condition must hold. -/
def anyOfB (ext : Ext) (ctx : Ctx) : List Condition → Bool
  | [] => false
  | c :: rest => if cond ext ctx c then true else anyOfB ext ctx rest

/-- noneOf: no condition may hold. -/
def noneOfB (ext : Ext) (ctx : Ctx) (cs : List Condition) : Bool :=
  !anyOfB ext ctx cs

/-- matchRule: the AllOf/AnyOf/NoneOf combination logic, with each group
consulted only when non-empty. -/
def matchRule (ext : Ext) (ctx : Ctx) (m : Match) : Bool :=
  let ok := true
  let ok := if 0 < m.allOf.length then ok && allOfB ext ctx m.allOf else ok
  let ok := if 0 < m.anyOf.length then ok && anyOfB ext ctx m.anyOf else ok
  let ok := if 0 < m.noneOf.length then ok && noneOfB ext ctx m.noneOf else ok
  ok

/-! ## Engine state: Eval and Stats (engine.go) -/

structure EngineState where
  rs : RuleSet := {}
  total : Int := 0
  matched : Int := 0
  byRule : List (String × Int) := []

/-- New(rs): a freshly created engine. -/
def engineNew (rs : RuleSet) : EngineState :=
  { rs := rs }

/-- The rule-selection loop of Eval: keep the highest-priority match seen so
far; a short_circuit rule that becomes the chosen one stops the scan. -/
def chooseRule (ext : Ext) (ctx : Ctx) : List Rule → Option Rule → Option Rule
  | [], chosen => chosen
  | r :: rest, chosen =>
    if matchRule ext ctx r.matchSpec then
      match chosen with
      | none =>
        if r.mode = "short_circuit" then some r else chooseRule ext ctx rest (some r)
      | some c =>
        if c.priority < r.priority then
          if r.mode = "short_circuit" then some r else chooseRule ext ctx rest (some r)
        else chooseRule ext ctx rest (some c)
    else chooseRule ext ctx rest chosen

/-- Eval: bump total, scan for the best matching rule, and on a hit bump
matched and the per-rule counter; returns the chosen rule id. -/
def evalStep (e : EngineState) (ctx : Ctx) (ext : Ext) : EngineState × Option String :=
  let e1 := { e with total := e.total + 1 }
  if e1.rs.rules.isEmpty then (e1, none)
  else
    match chooseRule ext ctx e1.rs.rules none with
    | none => (e1, none)
    | some chosen =>
      ({ e1 with
          matched := e1.matched + 1
          byRule := bumpA e1.byRule chosen.id }, some chosen.id)

structure EngineStats where
  total : Int := 0
  matched : Int := 0
  byRule : List (String × Int) := []

/-- Stats: a copy of the counters. -/
def engineStats (e : EngineState) : EngineStats :=
  { total := e.total, matched := e.matched, byRule := e.byRule }

/-- A finite sequence of Eval calls, each with its own context and oracle
values. -/
def evalSeq (e : EngineState) : List (Ctx × Ext) → EngineState
  | [] => e
  | (ctx, ext) :: rest => evalSeq (evalStep e ctx ext).1 rest

/-! ## C1: matchRule over allOf and anyOf -/

theorem allOfB_eq_true_iff (ext : Ext) (ctx : Ctx) (cs : List Condition) :
    allOfB ext ctx cs = true ↔ ∀ c ∈ cs, cond ext ctx c = true := by
  induction cs with
  | nil => simp [allOfB]
  | cons c rest ih =>
    by_cases h : cond ext ctx c = true
    · simp [allOfB, h, ih]
    · simp [allOfB, h]

theorem anyOfB_eq_true_iff (ext : Ext) (ctx : Ctx) (cs : List Condition) :
    anyOfB ext ctx cs = true ↔ ∃ c ∈ cs, cond ext ctx c = true := by
  induction cs with
  | nil => simp [anyOfB]
  | cons c rest ih =>
    by_cases h : cond ext ctx c = true
    · simp [anyOfB, h]
    · simp [anyOfB, h, ih]

/-- C1: for every evaluation context and every Match made of an allOf list and
an anyOf list (the two lists the rule schema exposes; the extra noneOf group
is empty), the match succeeds iff (allOf is empty or every allOf condition
holds) and (anyOf is empty or some anyOf condition holds); with both lists
empty every request matches. -/
theorem c1_matchRule_allOf_anyOf (ext : Ext) (ctx : Ctx)
    (allOf anyOf : List Condition) :
    (matchRule ext ctx { allOf := allOf, anyOf := anyOf, noneOf := [] } = true ↔
      ((allOf = [] ∨ ∀ c ∈ allOf, cond ext ctx c = true) ∧
       (anyOf = [] ∨ ∃ c ∈ anyOf, cond ext ctx c = true))) ∧
    matchRule ext ctx { allOf := [], anyOf := [], noneOf := [] } = true := by
  constructor
  · cases allOf with
    | nil =>
      cases anyOf with
      | nil => simp [matchRule]
      | cons a t =>
        simp [matchRule, anyOfB_eq_true_iff]
    | cons a1 t1 =>
      cases anyOf with
      | nil =>
        simp [matchRule, allOfB_eq_true_iff]
      | cons a2 t2 =>
        simp [matchRule, allOfB_eq_true_iff, anyOfB_eq_true_iff]
  · simp [matchRule]

/-! ## C6: statistics invariants over any finite sequence of Eval calls -/

theorem sumVals_bumpA (l : List (String × Int)) (k : String) :
    sumVals (bumpA l k) = sumVals l + 1 := by
  induction l with
  | nil => simp [bumpA, sumVals]
  | cons p rest ih =>
    by_cases h : p.1 = k
    · simp [bumpA, h, sumVals]
      ring
    · obtain ⟨k1, v1⟩ := p
      simp at h
      simp [bumpA, h, sumVals] at *
      omega

/-- The per-step invariant: total grows by one, matched by at most one, and
the byRule sum tracks matched exactly. -/
theorem evalStep_invariant (e : EngineState) (ctx : Ctx) (ext : Ext)
    (hsum : sumVals e.byRule = e.matched) (hle : e.matched ≤ e.total) :
    (evalStep e ctx ext).1.total = e.total + 1 ∧
    sumVals (evalStep e ctx ext).1.byRule = (evalStep e ctx ext).1.matched ∧
    (evalStep e ctx ext).1.matched ≤ (evalStep e ctx ext).1.total := by
  unfold evalStep
  by_cases hempty : e.rs.rules.isEmpty
  · simp [hempty, hsum]
    omega
  · simp [hempty]
    cases hch : chooseRule ext ctx e.rs.rules none with
    | none =>
      simp [hsum]
      omega
    | some chosen =>
      simp [sumVals_bumpA, hsum]
      omega

/-- C6: starting from a fresh engine, after any finite sequence of Eval calls
the stats satisfy Total = number of calls, Matched ≤ Total, and the sum of the
per-rule counters is at least Matched (here it equals Matched exactly). -/
theorem c6_stats_invariants (rs : RuleSet) (inputs : List (Ctx × Ext)) :
    (engineStats (evalSeq (engineNew rs) inputs)).total = inputs.length ∧
    (engineStats (evalSeq (engineNew rs) inputs)).matched ≤
      (engineStats (evalSeq (engineNew rs) inputs)).total ∧
    (engineStats (evalSeq (engineNew rs) inputs)).matched ≤
      sumVals (engineStats (evalSeq (engineNew rs) inputs)).byRule := by
  have main : ∀ (l : List (Ctx × Ext)) (e : EngineState),
      sumVals e.byRule = e.matched → e.matched ≤ e.total →
      (evalSeq e l).total = e.total + l.length ∧
      sumVals (evalSeq e l).byRule = (evalSeq e l).matched ∧
      (evalSeq e l).matched ≤ (evalSeq e l).total := by
    intro l
    induction l with
    | nil =>
      intro e hsum hle
      simp [evalSeq, hsum, hle]
    | cons p rest ih =>
      intro e hsum hle
      obtain ⟨ctx, ext⟩ := p
      obtain ⟨h1, h2, h3⟩ := evalStep_invariant e ctx ext hsum hle
      obtain ⟨g1, g2, g3⟩ := ih (evalStep e ctx ext).1 h2 h3
      refine ⟨?_, g2, g3⟩
      simp [evalSeq, g1, h1]
      ring
  obtain ⟨h1, h2, h3⟩ := main inputs (engineNew rs) (by simp [engineNew, sumVals]) (by simp [engineNew])
  refine ⟨?_, ?_, ?_⟩
  · simpa [engineStats, engineNew] using h1
  · simpa [engineStats] using h3
  · simp [engineStats]
    omega

/-! ## Base64 (encoding/base64 StdEncoding.DecodeString)

Go's standard decoder ignores carriage returns and newlines, requires padded
4-character quanta, allows padding only in the final quantum, and rejects any
character outside the standard alphabet. -/

/-- Value of one base64 alphabet byte. -/
def b64Val (c : Nat) : Option Nat :=
  if 65 ≤ c && c ≤ 90 then some (c - 65)
  else if 97 ≤ c && c ≤ 122 then some (c - 97 + 26)
  else if 48 ≤ c && c ≤ 57 then some (c - 48 + 52)
  else if c = 43 then some 62
  else if c = 47 then some 63
  else none

/-- Decode whole 4-byte quanta; 61 is the padding byte. -/
def b64Quanta : List Nat → Option (List Nat)
  | [] => some []
  | c0 :: c1 :: c2 :: c3 :: rest =>
    match b64Val c0, b64Val c1 with
    | some v0, some v1 =>
      if c2 = 61 then
        if c3 = 61 && rest.isEmpty then some [v0 * 4 + v1 / 16] else none
      else
        match b64Val c2 with
        | none => none
        | some v2 =>
          if c3 = 61 then
            if rest.isEmpty then some [v0 * 4 + v1 / 16, (v1 % 16) * 16 + v2 / 4]
            else none
          else
            match b64Val c3 with
            | none => none
            | some v3 =>
              match b64Quanta rest with
              | none => none
              | some out =>
                some ([v0 * 4 + v1 / 16, (v1 % 16) * 16 + v2 / 4,
                       (v2 % 4) * 64 + v3] ++ out)
    | _, _ => none
  | _ => none

/-- base64.StdEncoding.DecodeString on byte input. -/
def goBase64Decode (s : List Nat) : Option (List Nat) :=
  b64Quanta (s.filter (fun c => c != 13 && c != 10))

/-! ## Paused events and the manager context builder (internal/cdp/manager.go) -/

/-- The slice of a Fetch.requestPaused payload the embedded code reads. The
raw JSON request-header object is modelled already unmarshalled into pairs. -/
structure PausedEvent where
  url : String := ""
  method : String := ""
  requestHeaders : List (String × String) := []
  postData : Option String := none
  postDataEntries : List (Option String) := []
  resourceType : String := ""
  responseStatusCode : Option Int := none
  responseHeaders : List (String × String) := []

/-- The reply of Fetch.getResponseBody (none models a call error or nil
reply). -/
structure FetchRB where
  base64Encoded : Bool := false
  body : String := ""

/-- parseCookie: split a Cookie header into a name-value map. -/
def parseCookie (s : String) : List (String × String) :=
  (splitOnS s ";").foldl
    (fun out p =>
      match splitN2 (trimS p) "=" with
      | [k, v] => setA out k v
      | _ => out) []

/-- parseSetCookie: first name=value pair of a Set-Cookie header. -/
def parseSetCookie (s : String) : String × String :=
  let first := trimS ((splitN2 s ";").headD "")
  match splitN2 first "=" with
  | [k, v] => (k, v)
  | _ => ("", "")

/-- shouldGetBody: decide whether a response body is fetched for matching and
rewriting; a non-positive threshold falls back to 4 MiB, an oversized known
Content-Length skips the fetch, and only textual or JSON content is
eligible. -/
def shouldGetBody (ctype : String) (clen thr : Int) : Bool :=
  let thr := if thr ≤ 0 then 4 * 1024 * 1024 else thr
  if 0 < clen ∧ thr < clen then false
  else
    let lc := lowerS ctype
    if startsWithS lc "text/" then true
    else if startsWithS lc "application/json" then true
    else false

/-- The response-header map h of decide: header names lowercased, last write
wins. -/
def respHeadersLower (l : List (String × String)) : List (String × String) :=
  l.foldl (fun acc p => setA acc (lowerS p.1) p.2) []

/-- The cookie map ck of decide at the response stage: first name=value of
every Set-Cookie header, name lowercased. -/
def respCookies (l : List (String × String)) : List (String × String) :=
  l.foldl
    (fun acc p =>
      if equalFold p.1 "set-cookie" then
        let nv := parseSetCookie p.2
        if nv.1 ≠ "" then setA acc (lowerS nv.1) nv.2 else acc
      else acc) []

/-- The ctype value of decide at the response stage: the last Content-Type
response header. -/
def respCtype (l : List (String × String)) : String :=
  l.foldl (fun acc p => if equalFold p.1 "content-type" then p.2 else acc) ""

/-- The request-header map of decide at the request stage: keys lowercased. -/
def reqHeadersLower (l : List (String × String)) : List (String × String) :=
  l.foldl (fun acc p => setA acc (lowerS p.1) p.2) []

/-- The query map of decide at the request stage: first value per key, key
lowercased, from the parsed request URL. -/
def reqQueryMap (ext : Ext) (url : String) : List (String × String) :=
  if url = "" then []
  else
    match ext.queryOf url with
    | none => []
    | some qs =>
      qs.foldl
        (fun acc p =>
          match p.2 with
          | [] => acc
          | v :: _ => setA acc (lowerS p.1) v) []

/-- The cookie map of decide at the request stage: parsed Cookie header,
names lowercased. -/
def reqCookieMap (h : List (String × String)) : List (String × String) :=
  match lookupA h "cookie" with
  | none => []
  | some v => (parseCookie v).foldl (fun acc p => setA acc (lowerS p.1) p.2) []

/-- The context-building portion of Manager.decide: at the response stage the
headers, cookies, content type and (eligible, fetched) body all come from the
response; at the request stage they come from the request. The
Fetch.getResponseBody round-trip is the rb argument; it is consulted exactly
when shouldGetBody allows the fetch. -/
def decideCtx (ext : Ext) (ev : PausedEvent) (stage : String) (thr : Int)
    (rb : Option FetchRB) : Ctx :=
  if stage = "response" then
    let h := respHeadersLower ev.responseHeaders
    let ck := respCookies ev.responseHeaders
    let ctype := respCtype ev.responseHeaders
    let clen : Int :=
      match lookupA h "content-length" with
      | some v => match parseInt64 v with | some n => n | none => 0
      | none => 0
    let bodyText :=
      if shouldGetBody ctype clen thr then
        match rb with
        | none => ""
        | some r =>
          if r.base64Encoded then
            match goBase64Decode (strBytes r.body) with
            | some b => ext.bytesToString b
            | none => ""
          else r.body
      else ""
    { url := ev.url, method := ev.method, headers := h, query := [],
      cookies := ck, body := bodyText, contentType := ctype, stage := stage }
  else
    let h := reqHeadersLower ev.requestHeaders
    let q := reqQueryMap ext ev.url
    let ck := reqCookieMap h
    let ctype := (lookupA h "content-type").getD ""
    let bodyText := ev.postData.getD ""
    { url := ev.url, method := ev.method, headers := h, query := q,
      cookies := ck, body := bodyText, contentType := ctype, stage := stage }

/-! ## Association-list lemmas -/

theorem lookupA_setA_self {β : Type} (m : List (String × β)) (k : String) (v : β) :
    lookupA (setA m k v) k = some v := by
  induction m with
  | nil => simp [setA, lookupA]
  | cons p rest ih =>
    by_cases h : p.1 = k
    · simp [setA, h, lookupA]
    · obtain ⟨k1, v1⟩ := p
      simp at h
      simp [setA, h, lookupA, ih]

theorem lookupA_setA_ne {β : Type} (m : List (String × β)) {k k2 : String}
    (h : k ≠ k2) (v : β) :
    lookupA (setA m k v) k2 = lookupA m k2 := by
  induction m with
  | nil => simp [setA, lookupA, h]
  | cons p rest ih =>
    by_cases hp : p.1 = k
    · obtain ⟨k1, v1⟩ := p
      simp at hp
      subst hp
      simp [setA, lookupA, h]
    · obtain ⟨k1, v1⟩ := p
      simp at hp
      simp [setA, hp, lookupA, ih]

theorem lookupA_setA_isSome {β : Type} (m : List (String × β)) (k k2 : String)
    (v : β) (h : (lookupA m k2).isSome) :
    (lookupA (setA m k v) k2).isSome := by
  by_cases hk : k = k2
  · subst hk
    simp [lookupA_setA_self]
  · rw [lookupA_setA_ne m hk v]
    exact h

/-- Keys never written by the lowercasing header fold keep their initial
binding. -/
theorem lookup_lowerFold_eq (l : List (String × String))
    (init : List (String × String)) (k : String)
    (h : ∀ p ∈ l, lowerS p.1 ≠ k) :
    lookupA (l.foldl (fun acc p => setA acc (lowerS p.1) p.2) init) k =
      lookupA init k := by
  induction l generalizing init with
  | nil => rfl
  | cons p t ih =>
    have hp : lowerS p.1 ≠ k := h p (List.mem_cons_self p t)
    have ht : ∀ q ∈ t, lowerS q.1 ≠ k := fun q hq => h q (List.mem_cons_of_mem p hq)
    simp only [List.foldl_cons]
    rw [ih (setA init (lowerS p.1) p.2) ht, lookupA_setA_ne init hp p.2]

/-- A key written by some entry of the lowercasing header fold is bound in the
result. -/
theorem lookup_lowerFold_isSome (l : List (String × String))
    (init : List (String × String)) (k : String)
    (h : (lookupA init k).isSome ∨ ∃ p ∈ l, lowerS p.1 = k) :
    (lookupA (l.foldl (fun acc p => setA acc (lowerS p.1) p.2) init) k).isSome := by
  induction l generalizing init with
  | nil =>
    rcases h with h | ⟨p, hp, _⟩
    · exact h
    · exact absurd hp (List.not_mem_nil p)
  | cons p t ih =>
    simp only [List.foldl_cons]
    apply ih
    by_cases hk : lowerS p.1 = k
    · left
      rw [← hk]
      simp [lookupA_setA_self]
    · rcases h with h | ⟨q, hq, hqk⟩
      · exact Or.inl (lookupA_setA_isSome init (lowerS p.1) k p.2 h)
      · rcases List.mem_cons.mp hq with rfl | hq2
        · exact absurd hqk hk
        · exact Or.inr ⟨q, hq2, hqk⟩

/-- Keys never produced by a Set-Cookie header keep their initial binding in
the response cookie fold. -/
theorem lookup_cookieFold_eq (l : List (String × String))
    (init : List (String × String)) (k : String)
    (h : ∀ p ∈ l, equalFold p.1 "set-cookie" = true → lowerS (parseSetCookie p.2).1 ≠ k) :
    lookupA
      (l.foldl
        (fun acc p =>
          if equalFold p.1 "set-cookie" then
            let nv := parseSetCookie p.2
            if nv.1 ≠ "" then setA acc (lowerS nv.1) nv.2 else acc
          else acc) init) k = lookupA init k := by
  induction l generalizing init with
  | nil => rfl
  | cons p t ih =>
    have ht : ∀ q ∈ t, equalFold q.1 "set-cookie" = true → lowerS (parseSetCookie q.2).1 ≠ k :=
      fun q hq => h q (List.mem_cons_of_mem p hq)
    simp only [List.foldl_cons]
    by_cases hsc : equalFold p.1 "set-cookie" = true
    · have hne := h p (List.mem_cons_self p t) hsc
      simp only [hsc, if_true]
      by_cases hemp : (parseSetCookie p.2).1 = ""
      · rw [if_neg (by simp [hemp])]
        exact ih init ht
      · rw [if_pos hemp, ih _ ht, lookupA_setA_ne init hne (parseSetCookie p.2).2]
    · simp only [Bool.not_eq_true] at hsc
      simp only [hsc]
      simp only [Bool.false_eq_true, if_false]
      exact ih init ht

/-! ## C2: which side of the exchange feeds the evaluation context -/

/-- The concrete paused event used to settle C2: the request carries a header
and a cookie, the response carries a different header. -/
def evC2 : PausedEvent :=
  { url := "", method := "GET",
    requestHeaders := [("X-Req", "1"), ("Cookie", "a=b")],
    postData := some "reqbody",
    responseHeaders := [("X-Resp", "2")] }

/-- C2 counterexample: on a response-stage event the context built by decide
does not contain the request headers, cookies or body; it contains the
response header instead, refuting the claim that conditions always evaluate
against the request fields. The same event at the request stage does expose
the request header, so the difference is the stage, not the event. -/
theorem c2_counterexample :
    lookupA (decideCtx extUnit evC2 "response" 0 none).headers "x-req" = none ∧
    lookupA (decideCtx extUnit evC2 "response" 0 none).headers "x-resp" = some "2" ∧
    (decideCtx extUnit evC2 "response" 0 none).cookies = [] ∧
    (decideCtx extUnit evC2 "response" 0 none).body = "" ∧
    lookupA (decideCtx extUnit evC2 "request" 0 none).headers "x-req" = some "1" := by
  refine ⟨?_, ?_, ?_, ?_, ?_⟩ <;> rfl

/-- C2 (amended): the evaluation context is stage-local, not always
request-based. At any non-response stage the body and the header map come
from the request (headers lowercased); at the response stage the query map is
empty and the header and cookie maps are built exclusively from the response
headers, so no request-only field is visible to the conditions. -/
theorem c2_stage_local_context (ext : Ext) (ev : PausedEvent) (thr : Int)
    (rb : Option FetchRB) :
    (∀ stage, stage ≠ "response" →
      (decideCtx ext ev stage thr rb).body = ev.postData.getD "" ∧
      ∀ k, (lookupA (decideCtx ext ev stage thr rb).headers k).isSome ↔
        ∃ p ∈ ev.requestHeaders, lowerS p.1 = k) ∧
    (decideCtx ext ev "response" thr rb).query = [] ∧
    (∀ k, (lookupA (decideCtx ext ev "response" thr rb).headers k).isSome ↔
      ∃ p ∈ ev.responseHeaders, lowerS p.1 = k) ∧
    (∀ k, (lookupA (decideCtx ext ev "response" thr rb).cookies k).isSome →
      ∃ p ∈ ev.responseHeaders, equalFold p.1 "set-cookie" = true ∧
        lowerS (parseSetCookie p.2).1 = k) := by
  have hdrIff : ∀ (l : List (String × String)) (k : String),
      (lookupA (l.foldl (fun acc p => setA acc (lowerS p.1) p.2) []) k).isSome ↔
        ∃ p ∈ l, lowerS p.1 = k := by
    intro l k
    constructor
    · intro hs
      by_contra hno
      push_neg at hno
      rw [lookup_lowerFold_eq l [] k hno] at hs
      simp [lookupA] at hs
    · intro hex
      exact lookup_lowerFold_isSome l [] k (Or.inr hex)
  refine ⟨?_, ?_, ?_, ?_⟩
  · intro stage hstage
    rw [decideCtx.eq_def, if_neg hstage]
    exact ⟨rfl, fun k => by simpa [reqHeadersLower] using hdrIff ev.requestHeaders k⟩
  · rw [decideCtx.eq_def, if_pos rfl]
  · intro k
    rw [decideCtx.eq_def, if_pos rfl]
    simpa [respHeadersLower] using hdrIff ev.responseHeaders k
  · intro k
    rw [decideCtx.eq_def, if_pos rfl]
    intro hs
    by_contra hno
    push_neg at hno
    have hcond : ∀ p ∈ ev.responseHeaders,
        equalFold p.1 "set-cookie" = true → lowerS (parseSetCookie p.2).1 ≠ k :=
      fun p hp hsc => hno p hp hsc
    simp only [respCookies] at hs
    rw [lookup_cookieFold_eq ev.responseHeaders [] k hcond] at hs
    simp [lookupA] at hs

/-- C2 witness: the amended theorem applied at the concrete event, showing a
response header key bound in the response-stage context. -/
theorem c2_stage_local_context_witness :
    (lookupA (decideCtx extUnit evC2 "response" 0 none).headers "x-resp").isSome = true := by
  refine ((c2_stage_local_context extUnit evC2 0 none).2.2.1 "x-resp").mpr ?_
  refine ⟨("X-Resp", "2"), ?_, ?_⟩
  · simp [evC2]
  · rfl

/-! ## Rule specification v2 (pkg/rulespec/types.go) and the action executor
(internal/cdp/actions.go)

Action.Value is any in Go (a JSON-decoded scalar); the executor only type
asserts it to string (and to float64/int for setStatus), which GoVal mirrors.
Bodies are raw byte lists here, matching Go strings used as byte carriers. -/

inductive GoVal where
  | str (s : String) : GoVal
  | num (n : Int) : GoVal
deriving DecidableEq

structure JSONPatchOp where
  op : String := ""
  path : String := ""
  value : Json := Json.null
  fromPath : String := ""

structure Action where
  type : String := ""
  value : Option GoVal := none
  name : String := ""
  encoding : String := ""
  search : String := ""
  replace : String := ""
  replaceAll : Bool := false
  patches : List JSONPatchOp := []
  statusCode : Int := 0
  headers : List (String × String) := []
  body : String := ""
  bodyEncoding : String := ""

/-- GetEncoding: the setBody encoding, defaulting to text. -/
def getEncodingA (a : Action) : String :=
  if a.encoding = "" then "text" else a.encoding

/-- GetBodyEncoding: the block body encoding, defaulting to text. -/
def getBodyEncodingA (a : Action) : String :=
  if a.bodyEncoding = "" then "text" else a.bodyEncoding

/-- A v2 rule. Its Match expression is evaluated by the v2 engine, which is
not part of the sources; the executor under verification receives the list of
already-matched rules, so the Match payload plays no role here and is
omitted from the record. -/
structure RuleV2 where
  id : String := ""
  name : String := ""
  enabled : Bool := true
  priority : Int := 0
  stage : String := "request"
  actions : List Action := []

structure BlockResponse where
  statusCode : Int := 0
  headers : List (String × String) := []
  body : List Nat := []
deriving DecidableEq

structure RequestMutation where
  url : Option String := none
  method : Option String := none
  headers : List (String × String) := []
  removeHeaders : List String := []
  query : List (String × String) := []
  removeQuery : List String := []
  cookies : List (String × String) := []
  removeCookies : List String := []
  body : Option (List Nat) := none
  block : Option BlockResponse := none
deriving DecidableEq

structure ResponseMutation where
  statusCode : Option Int := none
  headers : List (String × String) := []
  removeHeaders : List String := []
  body : Option (List Nat) := none
deriving DecidableEq

/-- getRequestBody: concatenation of the post-data entries, or the single
PostData string. -/
def getRequestBody (ev : PausedEvent) : String :=
  match ev.postDataEntries with
  | [] => ev.postData.getD ""
  | l => l.foldl (fun acc e => acc ++ e.getD "") ""

/-- getContentType: the request Content-Type header (case-insensitive name
match; Go iterates its header map in unspecified order, here list order). -/
def getContentType (ev : PausedEvent) : String :=
  getContentTypeGo ev.requestHeaders
where getContentTypeGo : List (String × String) → String
  | [] => ""
  | (k, v) :: rest => if equalFold k "content-type" then v else getContentTypeGo rest

/-- url.Values.Set. -/
def valuesSet (l : List (String × List String)) (k v : String) : List (String × List String) :=
  setA l k [v]

/-- url.Values.Del. -/
def valuesDel (l : List (String × List String)) (k : String) : List (String × List String) :=
  eraseA l k

/-- setURLEncodedField: parse the form body, replace one field, re-encode. -/
def setURLEncodedField (ext : Ext) (body : List Nat) (name value : String) : List Nat :=
  ext.encodeQueryB (valuesSet (ext.parseQueryB body) name value)

/-- removeURLEncodedField. -/
def removeURLEncodedField (ext : Ext) (body : List Nat) (name : String) : List Nat :=
  ext.encodeQueryB (valuesDel (ext.parseQueryB body) name)

/-- setFormField: only urlencoded bodies are edited; multipart is accepted
but unimplemented and any other content type passes the body through. -/
def setFormField (ext : Ext) (body : List Nat) (name value : String) (ev : PausedEvent) : List Nat :=
  let contentType := getContentType ev
  if strContains contentType "application/x-www-form-urlencoded" then
    setURLEncodedField ext body name value
  else body

/-- removeFormField. -/
def removeFormField (ext : Ext) (body : List Nat) (name : String) (ev : PausedEvent) : List Nat :=
  let contentType := getContentType ev
  if strContains contentType "application/x-www-form-urlencoded" then
    removeURLEncodedField ext body name
  else body

/-- setJSONPath: add/replace walks object keys, creating missing parents as
fresh objects and replacing non-object nodes by fresh objects. -/
def setJSONPath : Json → List String → Json → Json
  | _, [], value => value
  | data, k :: rest, value =>
    let m := match data with | Json.obj fields => fields | _ => []
    if rest.isEmpty then Json.obj (setA m k value)
    else
      let child := (lookupA m k).getD (Json.obj [])
      Json.obj (setA m k (setJSONPath child rest value))

/-- removeJSONPath: remove walks object keys; a missing path or a non-object
node is a no-op. -/
def removeJSONPath : Json → List String → Json
  | data, [] => data
  | data, k :: rest =>
    match data with
    | Json.obj fields =>
      if rest.isEmpty then Json.obj (eraseA fields k)
      else
        match lookupA fields k with
        | some child => Json.obj (setA fields k (removeJSONPath child rest))
        | none => Json.obj fields
    | _ => data

/-- applyJSONPatchOp: one v2 patch operation (only add, replace and remove
are recognized; the path is split without RFC 6901 unescaping here, exactly
as the source does). -/
def applyJSONPatchOp (data : Json) (patch : JSONPatchOp) : Json :=
  if patch.path = "" || !(startsWithS patch.path "/") then data
  else
    let keys := splitOnS (dropS patch.path 1) "/"
    if keys.isEmpty then data
    else
      match patch.op with
      | "add" => setJSONPath data keys patch.value
      | "replace" => setJSONPath data keys patch.value
      | "remove" => removeJSONPath data keys
      | _ => data

/-- applyJSONPatches: parse, apply every op in order, re-serialize; an empty
body, empty patch list or parse failure leaves the body unchanged with
ok=false (json.Marshal of an unmarshalled value cannot fail). -/
def applyJSONPatches (ext : Ext) (body : List Nat) (patches : List JSONPatchOp) :
    List Nat × Bool :=
  if body.isEmpty || patches.isEmpty then (body, false)
  else
    match ext.parseJsonB body with
    | none => (body, false)
    | some data => (ext.marshalJsonB (patches.foldl applyJSONPatchOp data), true)

/-- The block response computed by the block action: status and headers come
straight from the action; a non-empty action body is base64-decoded when so
marked, with the raw text kept on decode failure. -/
def blockOfAction (a : Action) : BlockResponse :=
  { statusCode := a.statusCode
    headers := a.headers
    body :=
      if a.body ≠ "" then
        if getBodyEncodingA a = "base64" then
          match goBase64Decode (strBytes a.body) with
          | some d => d
          | none => strBytes a.body
        else strBytes a.body
      else [] }

/-- The action loop of ExecuteRequestActions: thread the working body and the
mutation through the list; block is terminal. In the source mu.Body aliases
the currentBody variable, so a body once set always reflects the final
working body; re-assigning it at every body-producing step reproduces that. -/
def execReqAux (ext : Ext) (ev : PausedEvent) :
    List Action → List Nat → RequestMutation → RequestMutation
  | [], _, mu => mu
  | a :: rest, body, mu =>
    match a.type with
    | "setUrl" =>
      match a.value with
      | some (GoVal.str v) => execReqAux ext ev rest body { mu with url := some v }
      | _ => execReqAux ext ev rest body mu
    | "setMethod" =>
      match a.value with
      | some (GoVal.str v) => execReqAux ext ev rest body { mu with method := some v }
      | _ => execReqAux ext ev rest body mu
    | "setHeader" =>
      match a.value with
      | some (GoVal.str v) =>
        execReqAux ext ev rest body { mu with headers := setA mu.headers a.name v }
      | _ => execReqAux ext ev rest body mu
    | "removeHeader" =>
      execReqAux ext ev rest body { mu with removeHeaders := mu.removeHeaders ++ [a.name] }
    | "setQueryParam" =>
      match a.value with
      | some (GoVal.str v) =>
        execReqAux ext ev rest body { mu with query := setA mu.query a.name v }
      | _ => execReqAux ext ev rest body mu
    | "removeQueryParam" =>
      execReqAux ext ev rest body { mu with removeQuery := mu.removeQuery ++ [a.name] }
    | "setCookie" =>
      match a.value with
      | some (GoVal.str v) =>
        execReqAux ext ev rest body { mu with cookies := setA mu.cookies a.name v }
      | _ => execReqAux ext ev rest body mu
    | "removeCookie" =>
      execReqAux ext ev rest body { mu with removeCookies := mu.removeCookies ++ [a.name] }
    | "setBody" =>
      match a.value with
      | some (GoVal.str v) =>
        let newBody :=
          if getEncodingA a = "base64" then
            match goBase64Decode (strBytes v) with
            | some decoded => decoded
            | none => strBytes v
          else strBytes v
        execReqAux ext ev rest newBody { mu with body := some newBody }
      | _ => execReqAux ext ev rest body mu
    | "replaceBodyText" =>
      let newBody :=
        if a.replaceAll then replaceAllL body (strBytes a.search) (strBytes a.replace)
        else replaceOnceL body (strBytes a.search) (strBytes a.replace)
      execReqAux ext ev rest newBody { mu with body := some newBody }
    | "patchBodyJson" =>
      match applyJSONPatches ext body a.patches with
      | (newBody, true) => execReqAux ext ev rest newBody { mu with body := some newBody }
      | (_, false) => execReqAux ext ev rest body mu
    | "setFormField" =>
      match a.value with
      | some (GoVal.str v) =>
        let newBody := setFormField ext body a.name v ev
        execReqAux ext ev rest newBody { mu with body := some newBody }
      | _ => execReqAux ext ev rest body mu
    | "removeFormField" =>
      let newBody := removeFormField ext body a.name ev
      execReqAux ext ev rest newBody { mu with body := some newBody }
    | "block" => { mu with block := some (blockOfAction a) }
    | _ => execReqAux ext ev rest body mu

/-- ExecuteRequestActions: run a rule action list against the current request
body, producing a request mutation. -/
def execRequestActions (ext : Ext) (ev : PausedEvent) (actions : List Action) :
    RequestMutation :=
  execReqAux ext ev actions (strBytes (getRequestBody ev)) {}

/-- The action loop of ExecuteResponseActions. -/
def execRespAux (ext : Ext) (ev : PausedEvent) :
    List Action → List Nat → ResponseMutation → ResponseMutation
  | [], _, mu => mu
  | a :: rest, body, mu =>
    match a.type with
    | "setStatus" =>
      match a.value with
      | some (GoVal.num n) => execRespAux ext ev rest body { mu with statusCode := some n }
      | _ => execRespAux ext ev rest body mu
    | "setHeader" =>
      match a.value with
      | some (GoVal.str v) =>
        execRespAux ext ev rest body { mu with headers := setA mu.headers a.name v }
      | _ => execRespAux ext ev rest body mu
    | "removeHeader" =>
      execRespAux ext ev rest body { mu with removeHeaders := mu.removeHeaders ++ [a.name] }
    | "setBody" =>
      match a.value with
      | some (GoVal.str v) =>
        let newBody :=
          if getEncodingA a = "base64" then
            match goBase64Decode (strBytes v) with
            | some decoded => decoded
            | none => strBytes v
          else strBytes v
        execRespAux ext ev rest newBody { mu with body := some newBody }
      | _ => execRespAux ext ev rest body mu
    | "replaceBodyText" =>
      let newBody :=
        if a.replaceAll then replaceAllL body (strBytes a.search) (strBytes a.replace)
        else replaceOnceL body (strBytes a.search) (strBytes a.replace)
      execRespAux ext ev rest newBody { mu with body := some newBody }
    | "patchBodyJson" =>
      match applyJSONPatches ext body a.patches with
      | (newBody, true) => execRespAux ext ev rest newBody { mu with body := some newBody }
      | (_, false) => execRespAux ext ev rest body mu
    | _ => execRespAux ext ev rest body mu

/-- ExecuteResponseActions: run a rule action list against the fetched
response body, producing a response mutation. -/
def execResponseActions (ext : Ext) (ev : PausedEvent) (actions : List Action)
    (responseBody : List Nat) : ResponseMutation :=
  execRespAux ext ev actions responseBody {}

/-! ## Applying mutations to CDP (actions.go) -/

/-- The CDP Fetch calls the executor can issue for one event, with the
optional arguments it chooses to populate. -/
inductive CdpCall where
  | fulfill (responseCode : Int) (responseHeaders : Option (List (String × String)))
      (body : Option (List Nat)) : CdpCall
  | continueReq (url : Option String) (method : Option String)
      (headers : Option (List (String × String))) (postData : Option (List Nat)) : CdpCall
  | continueResp (responseCode : Option Int)
      (responseHeaders : Option (List (String × String))) : CdpCall
deriving DecidableEq

/-- buildFinalURL: nothing to change yields nil; otherwise start from the
override or the original, and rebuild the query when query edits exist (a
parse failure returns the base URL unchanged). -/
def buildFinalURL (ext : Ext) (originalURL : String) (mu : RequestMutation) :
    Option String :=
  if mu.url = none ∧ mu.query = [] ∧ mu.removeQuery = [] then none
  else
    let baseURL := mu.url.getD originalURL
    if mu.query = [] ∧ mu.removeQuery = [] then some baseURL
    else
      match ext.queryOf baseURL with
      | none => some baseURL
      | some q =>
        let q := mu.removeQuery.foldl valuesDel q
        let q := mu.query.foldl (fun acc p => valuesSet acc p.1 p.2) q
        some (ext.urlWithQuery baseURL q)

/-- The first header value whose name case-insensitively equals the key (Go
iterates its header map in unspecified order, here list order). -/
def findFoldEq (l : List (String × String)) (k : String) : Option String :=
  match l with
  | [] => none
  | (k1, v1) :: rest => if equalFold k1 k then some v1 else findFoldEq rest k

/-- Cookie map serialized back to a single header value. -/
def joinCookiePairs (l : List (String × String)) : String :=
  joinS "; " (l.map (fun p => p.1 ++ "=" ++ p.2))

/-- The cookie-rebuild step of buildFinalHeaders: parse the existing Cookie
header, apply removes then sets, and either write one Cookie header or drop
it entirely. -/
def cookieRebuild (oh : List (String × String)) (mu : RequestMutation) :
    List (String × String) :=
  let cookieStr := (findFoldEq oh "cookie").getD ""
  let cookies := parseCookie cookieStr
  let cookies := mu.removeCookies.foldl eraseA cookies
  let cookies := mu.cookies.foldl (fun m p => setA m p.1 p.2) cookies
  if 0 < cookies.length then setA oh "Cookie" (joinCookiePairs cookies)
  else eraseA (eraseA oh "Cookie") "cookie"

/-- buildFinalHeaders: start from the request headers, apply removes (the
exact delete followed by the case-insensitive sweep amounts to removing every
case-variant), then sets, then the cookie rebuild when cookie edits exist. -/
def buildFinalHeaders (ev : PausedEvent) (mu : RequestMutation) :
    List (String × String) :=
  let oh := ev.requestHeaders
  let oh := mu.removeHeaders.foldl
    (fun m name => m.filter (fun kv => !(equalFold kv.1 name))) oh
  let oh := mu.headers.foldl (fun m p => setA m p.1 p.2) oh
  if 0 < mu.cookies.length ∨ 0 < mu.removeCookies.length then cookieRebuild oh mu
  else oh

/-- buildFinalResponseHeaders: original response headers, removes
(case-insensitive), then sets. -/
def buildFinalResponseHeaders (ev : PausedEvent) (mu : ResponseMutation) :
    List (String × String) :=
  let hs := ev.responseHeaders.foldl (fun m p => setA m p.1 p.2) []
  let hs := mu.removeHeaders.foldl
    (fun m name => m.filter (fun kv => !(equalFold kv.1 name))) hs
  mu.headers.foldl (fun m p => setA m p.1 p.2) hs

/-- ApplyRequestMutation: a terminal block becomes one fulfillRequest with the
block status, headers and body (optional arguments only when non-empty);
otherwise one continueRequest carrying the rebuilt URL, method, headers and
body. -/
def applyRequestMutation (ext : Ext) (ev : PausedEvent) (mu : RequestMutation) :
    CdpCall :=
  match mu.block with
  | some b =>
    CdpCall.fulfill b.statusCode
      (if 0 < b.headers.length then some b.headers else none)
      (if 0 < b.body.length then some b.body else none)
  | none =>
    let headers := buildFinalHeaders ev mu
    CdpCall.continueReq (buildFinalURL ext ev.url mu) mu.method
      (if 0 < headers.length then some headers else none) mu.body

/-- ContinueRequest with no arguments beyond the request id. -/
def continueRequestCall : CdpCall :=
  CdpCall.continueReq none none none none

/-- mergeRequestMutation: scalars last-write-wins, set maps merged with later
writes overriding, remove lists concatenated, body last-producer-wins; the
terminal block never flows through the merge. -/
def mergeRequestMutation (dst src : RequestMutation) : RequestMutation :=
  { dst with
    url := match src.url with | some u => some u | none => dst.url
    method := match src.method with | some m => some m | none => dst.method
    headers := src.headers.foldl (fun m p => setA m p.1 p.2) dst.headers
    query := src.query.foldl (fun m p => setA m p.1 p.2) dst.query
    cookies := src.cookies.foldl (fun m p => setA m p.1 p.2) dst.cookies
    removeHeaders := dst.removeHeaders ++ src.removeHeaders
    removeQuery := dst.removeQuery ++ src.removeQuery
    removeCookies := dst.removeCookies ++ src.removeCookies
    body := match src.body with | some b => some b | none => dst.body }

/-- hasRequestMutation: does the aggregated mutation change anything? -/
def hasRequestMutation (m : RequestMutation) : Bool :=
  m.url.isSome || m.method.isSome ||
  0 < m.headers.length || 0 < m.query.length || 0 < m.cookies.length ||
  0 < m.removeHeaders.length || 0 < m.removeQuery.length || 0 < m.removeCookies.length ||
  m.body.isSome

/-! ## Event payloads and the request-stage tracking loop (actions.go) -/

structure RequestInfo where
  url : String := ""
  method : String := ""
  headers : List (String × String) := []
  body : List Nat := []
  resourceType : String := ""
deriving DecidableEq

structure ResponseInfo where
  statusCode : Int := 0
  headers : List (String × String) := []
  body : List Nat := []
deriving DecidableEq

structure RuleMatch where
  ruleId : String := ""
  ruleName : String := ""
  actions : List String := []
deriving DecidableEq

/-- One attempted emission on the event channel (the channel send is
non-blocking, so delivery may drop the event; emission is what is modelled). -/
inductive SentEvent where
  | matchedEv (finalResult : String) (matchedRules : List RuleMatch)
      (request : RequestInfo) (response : ResponseInfo) : SentEvent
  | unmatchedEv (request : RequestInfo) (response : ResponseInfo) : SentEvent
deriving DecidableEq

/-- The observable outcome of handling one event: the CDP calls issued and the
events emitted, in order. -/
structure Outcome where
  calls : List CdpCall := []
  events : List SentEvent := []
deriving DecidableEq

/-- buildRuleMatches: one summary per matched rule, carrying the declared
action types of the whole rule. -/
def buildRuleMatches (matchedRules : List RuleV2) : List RuleMatch :=
  matchedRules.map (fun r =>
    { ruleId := r.id, ruleName := r.name, actions := r.actions.map (fun a => a.type) })

/-- captureModifiedRequestData: the request snapshot with the aggregated
mutation replayed onto it (exact-key removes, then sets). -/
def captureModifiedRequestData (original : RequestInfo) (mu : RequestMutation) :
    RequestInfo :=
  let hs := original.headers
  let hs := mu.removeHeaders.foldl eraseA hs
  let hs := mu.headers.foldl (fun m p => setA m p.1 p.2) hs
  { url := mu.url.getD original.url
    method := original.method
    headers := hs
    body := mu.body.getD original.body
    resourceType := original.resourceType }

/-- The rule loop of executeRequestStageWithTracking: rules with no actions
are skipped; a rule whose execution produced a terminal block is applied at
once and ends the event with a blocked Matched event; otherwise the per-rule
mutations are merged in order. After the loop an effective aggregate is
applied as one continueRequest (modified) and an empty one degenerates to a
plain continueRequest (passed). -/
def execReqStageLoop (ext : Ext) (ev : PausedEvent) (ruleMatches : List RuleMatch)
    (reqI : RequestInfo) (respI : ResponseInfo) :
    List RuleV2 → Option RequestMutation → Outcome
  | [], agg =>
    match agg with
    | some m =>
      if hasRequestMutation m then
        { calls := [applyRequestMutation ext ev m]
          events := [SentEvent.matchedEv "modified" ruleMatches
            (captureModifiedRequestData reqI m) respI] }
      else
        { calls := [continueRequestCall]
          events := [SentEvent.matchedEv "passed" ruleMatches reqI respI] }
    | none =>
      { calls := [continueRequestCall]
        events := [SentEvent.matchedEv "passed" ruleMatches reqI respI] }
  | r :: rest, agg =>
    if r.actions.isEmpty then execReqStageLoop ext ev ruleMatches reqI respI rest agg
    else
      let mu := execRequestActions ext ev r.actions
      match mu.block with
      | some _ =>
        { calls := [applyRequestMutation ext ev mu]
          events := [SentEvent.matchedEv "blocked" ruleMatches reqI respI] }
      | none =>
        execReqStageLoop ext ev ruleMatches reqI respI rest
          (some (match agg with | none => mu | some d => mergeRequestMutation d mu))

/-- executeRequestStageWithTracking: run every matched rule in the order the
engine returned them and produce the event outcome. -/
def executeRequestStageWithTracking (ext : Ext) (ev : PausedEvent)
    (matchedRules : List RuleV2) (reqI : RequestInfo) (respI : ResponseInfo) : Outcome :=
  execReqStageLoop ext ev (buildRuleMatches matchedRules) reqI respI matchedRules none

/-! ## C3, C4, C5: the request-stage pipeline -/


/-- An action list containing a block action always yields a mutation whose
terminal block is set. -/
theorem execReqAux_block_isSome (ext : Ext) (ev : PausedEvent) :
    ∀ (actions : List Action) (body : List Nat) (mu : RequestMutation),
      (∃ a ∈ actions, a.type = "block") →
      (execReqAux ext ev actions body mu).block.isSome := by
  intro actions
  induction actions with
  | nil =>
    intro body mu h
    simp at h
  | cons a rest ih =>
    intro body mu h
    by_cases hb : a.type = "block"
    · simp [execReqAux, hb]
    · have hrest : ∃ a2 ∈ rest, a2.type = "block" := by
        rcases h with ⟨x, hx, hxt⟩
        rcases List.mem_cons.mp hx with rfl | hmem
        · exact absurd hxt hb
        · exact ⟨x, hmem, hxt⟩
      simp only [execReqAux]
      split <;> try exact ih _ _ hrest
      all_goals try (split <;> try exact ih _ _ hrest)
      all_goals simp_all

def ruleC3A : RuleV2 :=
  { id := "A", name := "Rule A", priority := 200,
    actions := [{ type := "block", statusCode := 403,
                  headers := [("Content-Type", "text/plain")], body := "no" }] }

def ruleC3B : RuleV2 :=
  { id := "B", name := "Rule B", priority := 100,
    actions := [{ type := "setHeader", name := "X", value := some (GoVal.str "Y") }] }

def evEmpty : PausedEvent := {}

def outC3 : Outcome :=
  executeRequestStageWithTracking extUnit evEmpty [ruleC3A, ruleC3B] {} {}

theorem c3_counterexample :
    outC3.calls = [CdpCall.fulfill 403 (some [("Content-Type", "text/plain")]) (some [110, 111])] ∧
    outC3.events = [SentEvent.matchedEv "blocked"
      [{ ruleId := "A", ruleName := "Rule A", actions := ["block"] },
       { ruleId := "B", ruleName := "Rule B", actions := ["setHeader"] }] {} {}] := by
  constructor <;> rfl

theorem c3_block_terminal (ext : Ext) (ev : PausedEvent)
    (reqI : RequestInfo) (respI : ResponseInfo) (r : RuleV2) (rest : List RuleV2)
    (_hrest : rest ≠ [])
    (_hpr : ∀ r2 ∈ rest, r2.priority < r.priority)
    (hblock : ∃ a ∈ r.actions, a.type = "block") :
    (execRequestActions ext ev r.actions).block.isSome = true ∧
    ∀ b, (execRequestActions ext ev r.actions).block = some b →
      (executeRequestStageWithTracking ext ev (r :: rest) reqI respI).calls =
        [CdpCall.fulfill b.statusCode
          (if 0 < b.headers.length then some b.headers else none)
          (if 0 < b.body.length then some b.body else none)] ∧
      (executeRequestStageWithTracking ext ev (r :: rest) reqI respI).events =
        [SentEvent.matchedEv "blocked" (buildRuleMatches (r :: rest)) reqI respI] := by
  refine ⟨execReqAux_block_isSome ext ev r.actions _ _ hblock, ?_⟩
  intro b hb
  have hne : r.actions.isEmpty = false := by
    rcases hblock with ⟨a, ha, _⟩
    cases hact : r.actions with
    | nil => rw [hact] at ha; simp at ha
    | cons x xs => simp [List.isEmpty]
  simp only [executeRequestStageWithTracking, execReqStageLoop, hne, Bool.false_eq_true,
    if_false, execRequestActions] at *
  rw [hb]
  simp only [applyRequestMutation, hb]
  simp

theorem c3_block_terminal_witness :
    (execRequestActions extUnit evEmpty ruleC3A.actions).block.isSome = true :=
  (c3_block_terminal extUnit evEmpty {} {} ruleC3A [ruleC3B]
    (by simp)
    (by intro r2 hr2; simp at hr2; subst hr2; decide)
    ⟨{ type := "block", statusCode := 403,
       headers := [("Content-Type", "text/plain")], body := "no" },
      by simp [ruleC3A], rfl⟩).1

/-! C4 -/

theorem lookup_setAFold_not_mem {β : Type} (l : List (String × β))
    (init : List (String × β)) (k : String) (h : ∀ p ∈ l, p.1 ≠ k) :
    lookupA (l.foldl (fun m p => setA m p.1 p.2) init) k = lookupA init k := by
  induction l generalizing init with
  | nil => rfl
  | cons p t ih =>
    simp only [List.foldl_cons]
    rw [ih _ (fun q hq => h q (List.mem_cons_of_mem p hq)),
      lookupA_setA_ne init (h p (List.mem_cons_self p t)) p.2]

theorem lookup_setAFold_of_nodup {β : Type} (l : List (String × β))
    (init : List (String × β)) (name : String) (value : β)
    (hnd : (l.map Prod.fst).Nodup) (hl : lookupA l name = some value) :
    lookupA (l.foldl (fun m p => setA m p.1 p.2) init) name = some value := by
  induction l generalizing init with
  | nil => simp [lookupA] at hl
  | cons p t ih =>
    simp only [List.map_cons, List.nodup_cons] at hnd
    obtain ⟨hp, hnd2⟩ := hnd
    by_cases hk : p.1 = name
    · have hv : p.2 = value := by
        obtain ⟨k1, v1⟩ := p
        simp only [lookupA, hk, if_pos] at hl
        simp at hk
        subst hk
        simp [lookupA] at hl
        exact hl
      have hnm : ∀ q ∈ t, q.1 ≠ name := by
        intro q hq
        rw [← hk]
        intro hcon
        exact hp (hcon ▸ List.mem_map_of_mem Prod.fst hq)
      simp only [List.foldl_cons]
      rw [lookup_setAFold_not_mem t _ name hnm, hk, hv, lookupA_setA_self]
    · have hl2 : lookupA t name = some value := by
        obtain ⟨k1, v1⟩ := p
        simp only [lookupA] at hl
        simp at hk
        rw [if_neg hk] at hl
        exact hl
      simp only [List.foldl_cons]
      exact ih _ hnd2 hl2

/-- C4 (amended core): a key set in the aggregated mutation survives into the
final header list even when the same key is also in the remove list, because
buildFinalHeaders applies removes before sets. -/
theorem c4_set_beats_remove (ev : PausedEvent) (mu : RequestMutation)
    (name value : String)
    (hnd : (mu.headers.map Prod.fst).Nodup)
    (hset : lookupA mu.headers name = some value)
    (_hrm : name ∈ mu.removeHeaders)
    (hck : mu.cookies = []) (hrck : mu.removeCookies = []) :
    lookupA (buildFinalHeaders ev mu) name = some value := by
  unfold buildFinalHeaders
  rw [hck, hrck]
  simp only [List.length_nil, lt_irrefl, or_self, if_false]
  exact lookup_setAFold_of_nodup mu.headers _ name value hnd hset

def ruleC4A : RuleV2 :=
  { id := "set", priority := 200,
    actions := [{ type := "setHeader", name := "X", value := some (GoVal.str "1") }] }

def ruleC4B : RuleV2 :=
  { id := "rm", priority := 100,
    actions := [{ type := "removeHeader", name := "X" }] }

theorem c4_counterexample :
    (executeRequestStageWithTracking extUnit evEmpty [ruleC4A, ruleC4B] {} {}).calls =
      [CdpCall.continueReq none none (some [("X", "1")]) none] ∧
    lookupA [("X", "1")] "X" = some "1" := by
  constructor <;> rfl

theorem c4_set_beats_remove_witness :
    lookupA (buildFinalHeaders evEmpty
      { headers := [("X", "1")], removeHeaders := ["X"] }) "X" = some "1" :=
  c4_set_beats_remove evEmpty { headers := [("X", "1")], removeHeaders := ["X"] }
    "X" "1" (by simp) rfl (by simp) rfl rfl

/-! C5 -/

def setBodyBadB64 : Action :=
  { type := "setBody", value := some (GoVal.str "!!!"), encoding := "base64" }

theorem c5_counterexample :
    goBase64Decode (strBytes "!!!") = none ∧
    strBytes "!!!" = [33, 33, 33] ∧
    (execRequestActions extUnit evEmpty [setBodyBadB64]).body = some [33, 33, 33] ∧
    (execResponseActions extUnit evEmpty [setBodyBadB64] []).body = some [33, 33, 33] := by
  refine ⟨?_, ?_, ?_, ?_⟩ <;> rfl

/-- C5 (amended): a base64 setBody whose value fails to decode sets the
working body and the mutation body to the raw undecoded value, at both
stages. -/
theorem c5_base64_failure_raw_value (ext : Ext) (ev : PausedEvent) (a : Action)
    (v : String) (rest : List Action) (body : List Nat)
    (mu : RequestMutation) (mur : ResponseMutation)
    (ht : a.type = "setBody") (hv : a.value = some (GoVal.str v))
    (henc : getEncodingA a = "base64")
    (hdec : goBase64Decode (strBytes v) = none) :
    execReqAux ext ev (a :: rest) body mu =
      execReqAux ext ev rest (strBytes v) { mu with body := some (strBytes v) } ∧
    execRespAux ext ev (a :: rest) body mur =
      execRespAux ext ev rest (strBytes v) { mur with body := some (strBytes v) } := by
  constructor
  · simp only [execReqAux, ht, hv, henc, hdec]
    simp
  · simp only [execRespAux, ht, hv, henc, hdec]
    simp

theorem c5_base64_failure_raw_value_witness :
    execReqAux extUnit evEmpty [setBodyBadB64] [] {} =
      execReqAux extUnit evEmpty [] (strBytes "!!!") { body := some (strBytes "!!!") } :=
  (c5_base64_failure_raw_value extUnit evEmpty setBodyBadB64 "!!!" [] [] {} {}
    rfl rfl rfl (by rfl)).1




/-! ## Config storage and ID validation (pkg/rulespec/types.go,
internal/storage ConfigRepo) -/

/-- One character of the ID pattern [A-Za-z0-9_-]. -/
def isIdChar (c : Char) : Bool :=
  ('a' ≤ c ∧ c ≤ 'z') ∨ ('A' ≤ c ∧ c ≤ 'Z') ∨ ('0' ≤ c ∧ c ≤ '9') ∨ c = '_' ∨ c = '-'

/-- idPattern.MatchString: at least one character, all from the class. -/
def idPatternMatch (s : String) : Bool :=
  !s.data.isEmpty && s.data.all isIdChar

/-- ValidateConfigID: 3-64 bytes of [A-Za-z0-9_-]. -/
def validateConfigID (id : String) : Option String :=
  if goLen id < 3 ∨ 64 < goLen id then some "config id length out of range"
  else if !idPatternMatch id then some "config id has illegal characters"
  else none

/-- ValidateRuleID: 1-64 bytes of [A-Za-z0-9_-]. -/
def validateRuleID (id : String) : Option String :=
  if goLen id < 1 ∨ 64 < goLen id then some "rule id length out of range"
  else if !idPatternMatch id then some "rule id has illegal characters"
  else none

/-- A v2 Config document. The reserved settings bag is carried opaquely. -/
structure ConfigV2 where
  id : String := ""
  name : String := ""
  version : String := ""
  description : String := ""
  settings : List (String × Json) := []
  rules : List RuleV2 := []

/-- validateRuleIDs: format of every rule ID plus uniqueness via the seen
set. -/
def validateRuleIDsGo : List RuleV2 → List String → Option String
  | [], _ => none
  | r :: rest, seen =>
    match validateRuleID r.id with
    | some e => some e
    | none =>
      if r.id ∈ seen then some "duplicate rule id"
      else validateRuleIDsGo rest (r.id :: seen)

def validateRuleIDs (rules : List RuleV2) : Option String :=
  validateRuleIDsGo rules []

/-- A stored row of the configs table; the marshalled ConfigJSON column is
modelled as the config value itself (json.Marshal of these documents cannot
fail). -/
structure ConfigRecord where
  dbId : Nat := 0
  configId : String := ""
  name : String := ""
  version : String := ""
  cfg : ConfigV2 := {}
  isActive : Bool := false

abbrev DBState := List ConfigRecord

structure RepoResult where
  db : DBState
  record : Option ConfigRecord := none
  err : Option String := none

/-- ConfigRepo.Create: validate the config ID and the rule IDs, then insert
one row (the fresh primary key is supplied by the caller). -/
def repoCreate (db : DBState) (nextId : Nat) (cfg : ConfigV2) : RepoResult :=
  match validateConfigID cfg.id with
  | some e => { db := db, err := some e }
  | none =>
    match validateRuleIDs cfg.rules with
    | some e => { db := db, err := some e }
    | none =>
      let rec1 : ConfigRecord :=
        { dbId := nextId, configId := cfg.id, name := cfg.name,
          version := cfg.version, cfg := cfg, isActive := false }
      { db := db ++ [rec1], record := some rec1 }

/-- ConfigRepo.Update: validate, then overwrite the row with the matching
primary key. -/
def repoUpdate (db : DBState) (dbID : Nat) (cfg : ConfigV2) : DBState × Option String :=
  match validateConfigID cfg.id with
  | some e => (db, some e)
  | none =>
    match validateRuleIDs cfg.rules with
    | some e => (db, some e)
    | none =>
      (db.map (fun r =>
        if r.dbId = dbID then
          { r with configId := cfg.id, name := cfg.name, version := cfg.version, cfg := cfg }
        else r), none)

/-- ConfigRepo.GetByID. -/
def repoGetByID (db : DBState) (dbID : Nat) : Option ConfigRecord :=
  db.find? (fun r => r.dbId = dbID)

/-- ConfigRepo.GetByConfigID. -/
def repoGetByConfigID (db : DBState) (cid : String) : Option ConfigRecord :=
  db.find? (fun r => r.configId = cid)

/-- ConfigRepo.Upsert: validate, then update the row with the same business
config ID when it exists, else create. -/
def repoUpsert (db : DBState) (nextId : Nat) (cfg : ConfigV2) : RepoResult :=
  match validateConfigID cfg.id with
  | some e => { db := db, err := some e }
  | none =>
    match validateRuleIDs cfg.rules with
    | some e => { db := db, err := some e }
    | none =>
      match repoGetByConfigID db cfg.id with
      | some existing =>
        match repoUpdate db existing.dbId cfg with
        | (db2, none) => { db := db2, record := repoGetByID db2 existing.dbId }
        | (db2, some e) => { db := db2, err := some e }
      | none => repoCreate db nextId cfg

theorem validateRuleIDsGo_none_iff (rules : List RuleV2) (seen : List String) :
    validateRuleIDsGo rules seen = none ↔
      ((∀ r ∈ rules, validateRuleID r.id = none) ∧
       (rules.map RuleV2.id).Nodup ∧
       ∀ r ∈ rules, r.id ∉ seen) := by
  induction rules generalizing seen with
  | nil => simp [validateRuleIDsGo]
  | cons r t ih =>
    cases hv : validateRuleID r.id with
    | some e =>
      simp only [validateRuleIDsGo, hv]
      constructor
      · intro h; exact absurd h (by simp)
      · rintro ⟨hall, -, -⟩
        have := hall r (List.mem_cons_self r t)
        rw [hv] at this
        exact absurd this (by simp)
    | none =>
      by_cases hs : r.id ∈ seen
      · simp only [validateRuleIDsGo, hv, if_pos hs]
        constructor
        · intro h; exact absurd h (by simp)
        · rintro ⟨-, -, hseen⟩
          exact absurd hs (hseen r (List.mem_cons_self r t))
      · simp only [validateRuleIDsGo, hv, if_neg hs]
        rw [ih (r.id :: seen)]
        constructor
        · rintro ⟨hall, hnd, hseen⟩
          refine ⟨?_, ?_, ?_⟩
          · intro x hx
            rcases List.mem_cons.mp hx with rfl | hx2
            · exact hv
            · exact hall x hx2
          · simp only [List.map_cons, List.nodup_cons]
            refine ⟨?_, hnd⟩
            intro hmem
            rcases List.mem_map.mp hmem with ⟨x, hx, hid⟩
            exact (hseen x hx) (by simp [hid])
          · intro x hx
            rcases List.mem_cons.mp hx with rfl | hx2
            · exact hs
            · intro hmem
              exact (hseen x hx2) (List.mem_cons_of_mem _ hmem)
        · rintro ⟨hall, hnd, hseen⟩
          simp only [List.map_cons, List.nodup_cons] at hnd
          refine ⟨fun x hx => hall x (List.mem_cons_of_mem r hx), hnd.2, ?_⟩
          intro x hx hmem
          rcases List.mem_cons.mp hmem with heq | hmem2
          · exact hnd.1 (heq ▸ List.mem_map_of_mem RuleV2.id hx)
          · exact (hseen x (List.mem_cons_of_mem r hx)) hmem2

theorem validateRuleIDs_none_iff (rules : List RuleV2) :
    validateRuleIDs rules = none ↔
      ((∀ r ∈ rules, validateRuleID r.id = none) ∧ (rules.map RuleV2.id).Nodup) := by
  unfold validateRuleIDs
  rw [validateRuleIDsGo_none_iff]
  simp

/-- Invariant: every persisted config has pairwise-distinct rule IDs. -/
def dbRulesNodup (db : DBState) : Prop :=
  ∀ rec ∈ db, ((rec.cfg.rules.map RuleV2.id).Nodup)

theorem dbRulesNodup_create (db : DBState) (nextId : Nat) (cfg : ConfigV2)
    (h : dbRulesNodup db) : dbRulesNodup (repoCreate db nextId cfg).db := by
  unfold repoCreate
  cases hc : validateConfigID cfg.id with
  | some e => exact h
  | none =>
    cases hv : validateRuleIDs cfg.rules with
    | some e => exact h
    | none =>
      intro rec hrec
      rcases List.mem_append.mp hrec with hin | hnew
      · exact h rec hin
      · simp at hnew
        subst hnew
        exact ((validateRuleIDs_none_iff cfg.rules).mp hv).2

theorem dbRulesNodup_update (db : DBState) (dbID : Nat) (cfg : ConfigV2)
    (h : dbRulesNodup db) : dbRulesNodup (repoUpdate db dbID cfg).1 := by
  unfold repoUpdate
  cases hc : validateConfigID cfg.id with
  | some e => exact h
  | none =>
    cases hv : validateRuleIDs cfg.rules with
    | some e => exact h
    | none =>
      intro rec hrec
      simp only at hrec
      rcases List.mem_map.mp hrec with ⟨orig, horig, heq⟩
      by_cases hid : orig.dbId = dbID
      · rw [if_pos hid] at heq
        subst heq
        exact ((validateRuleIDs_none_iff cfg.rules).mp hv).2
      · rw [if_neg hid] at heq
        subst heq
        exact h orig horig

theorem dbRulesNodup_upsert (db : DBState) (nextId : Nat) (cfg : ConfigV2)
    (h : dbRulesNodup db) : dbRulesNodup (repoUpsert db nextId cfg).db := by
  unfold repoUpsert
  cases hc : validateConfigID cfg.id with
  | some e => exact h
  | none =>
    cases hv : validateRuleIDs cfg.rules with
    | some e => exact h
    | none =>
      cases hex : repoGetByConfigID db cfg.id with
      | none => exact dbRulesNodup_create db nextId cfg h
      | some existing =>
        show dbRulesNodup
          (match repoUpdate db existing.dbId cfg with
            | (db2, none) =>
              ({ db := db2, record := repoGetByID db2 existing.dbId, err := none } : RepoResult)
            | (db2, some e) => { db := db2, record := none, err := some e }).db
        have h2 : (repoUpdate db existing.dbId cfg).2 = none := by
          unfold repoUpdate
          rw [hc, hv]
        have hpres := dbRulesNodup_update db existing.dbId cfg h
        cases hu : repoUpdate db existing.dbId cfg with
        | mk db2 err2 =>
          rw [hu] at h2 hpres
          cases err2 with
          | none => exact hpres
          | some e => simp at h2

/-- C7: a config with a duplicated rule ID, or a rule ID outside the 1-64
character [A-Za-z0-9_-]+ format, is rejected by Create, Update and Upsert
with the database untouched; and every save path preserves the invariant
that each persisted config has pairwise-distinct rule IDs. -/
theorem c7_rule_id_uniqueness (db : DBState) (nextId dbID : Nat) (cfg : ConfigV2)
    (hbad : (∃ r ∈ cfg.rules, validateRuleID r.id ≠ none) ∨
      ¬ (cfg.rules.map RuleV2.id).Nodup) :
    ((repoCreate db nextId cfg).db = db ∧
     (repoCreate db nextId cfg).err.isSome = true ∧
     (repoCreate db nextId cfg).record = none) ∧
    ((repoUpdate db dbID cfg).1 = db ∧ (repoUpdate db dbID cfg).2.isSome = true) ∧
    ((repoUpsert db nextId cfg).db = db ∧
     (repoUpsert db nextId cfg).err.isSome = true ∧
     (repoUpsert db nextId cfg).record = none) ∧
    (∀ cfg2 : ConfigV2, dbRulesNodup db →
      dbRulesNodup (repoCreate db nextId cfg2).db ∧
      dbRulesNodup (repoUpdate db dbID cfg2).1 ∧
      dbRulesNodup (repoUpsert db nextId cfg2).db) := by
  have hvr : ∀ rules2, rules2 = cfg.rules → validateRuleIDs rules2 ≠ none := by
    intro rules2 hr hnone
    subst hr
    rw [validateRuleIDs_none_iff] at hnone
    rcases hbad with ⟨r, hrmem, hrbad⟩ | hnd
    · exact hrbad (hnone.1 r hrmem)
    · exact hnd hnone.2
  refine ⟨?_, ?_, ?_, ?_⟩
  · unfold repoCreate
    cases hc : validateConfigID cfg.id with
    | some e => exact ⟨rfl, rfl, rfl⟩
    | none =>
      cases hv : validateRuleIDs cfg.rules with
      | some e => exact ⟨rfl, rfl, rfl⟩
      | none => exact absurd hv (hvr cfg.rules rfl)
  · unfold repoUpdate
    cases hc : validateConfigID cfg.id with
    | some e => exact ⟨rfl, rfl⟩
    | none =>
      cases hv : validateRuleIDs cfg.rules with
      | some e => exact ⟨rfl, rfl⟩
      | none => exact absurd hv (hvr cfg.rules rfl)
  · unfold repoUpsert
    cases hc : validateConfigID cfg.id with
    | some e => exact ⟨rfl, rfl, rfl⟩
    | none =>
      cases hv : validateRuleIDs cfg.rules with
      | some e => exact ⟨rfl, rfl, rfl⟩
      | none => exact absurd hv (hvr cfg.rules rfl)
  · intro cfg2 h
    exact ⟨dbRulesNodup_create db nextId cfg2 h,
      dbRulesNodup_update db dbID cfg2 h,
      dbRulesNodup_upsert db nextId cfg2 h⟩

/-- A config whose two rules share an ID. -/
def cfgDupRules : ConfigV2 :=
  { id := "cfg-1", rules := [{ id := "r1" }, { id := "r1" }] }

/-- C7 witness: the rejection theorem applied to the concrete duplicate-ID
config. -/
theorem c7_rule_id_uniqueness_witness :
    (repoCreate [] 1 cfgDupRules).err.isSome = true ∧
    (repoCreate [] 1 cfgDupRules).db = [] :=
  have h := c7_rule_id_uniqueness [] 1 0 cfgDupRules (Or.inr (by decide))
  ⟨h.1.2.1, h.1.1⟩

/-! ## Service layer (internal/service/service.go) -/

structure SessionConfig where
  devToolsURL : String := ""
  concurrency : Int := 0
  bodySizeThreshold : Int := 0
  pendingCapacity : Int := 0
  processTimeoutMS : Int := 0

/-- The default-filling prologue of StartSession. -/
def applyDefaults (cfg : SessionConfig) : SessionConfig :=
  let cfg := if cfg.concurrency ≤ 0 then { cfg with concurrency := 8 } else cfg
  let cfg := if cfg.bodySizeThreshold ≤ 0 then { cfg with bodySizeThreshold := 1 <<< 20 } else cfg
  let cfg := if cfg.processTimeoutMS ≤ 0 then { cfg with processTimeoutMS := 3000 } else cfg
  if cfg.pendingCapacity ≤ 0 then { cfg with pendingCapacity := 64 } else cfg

/-- The slice of cdp.Manager state the service installs at session start. -/
structure MgrRec where
  engine : Option EngineState := none
  workers : Int := 0
  bodySizeThreshold : Int := 0
  processTimeoutMS : Int := 0

structure SessionRec where
  cfg : SessionConfig := {}
  mgr : Option MgrRec := none

abbrev SvcState := List (String × SessionRec)

structure StartResult where
  svc : SvcState
  id : String
  err : Option String
  /-- The DevTools round-trips StartSession performs. -/
  devtoolsCalls : List String

/-- StartSession: fill defaults, create the manager and register the session
under a fresh UUID (supplied by the caller); no DevTools call is made and no
error path exists. -/
def startSession (svc : SvcState) (cfg : SessionConfig) (newId : String) : StartResult :=
  let cfg := applyDefaults cfg
  let mgr : MgrRec :=
    { engine := none, workers := cfg.concurrency,
      bodySizeThreshold := cfg.bodySizeThreshold,
      processTimeoutMS := cfg.processTimeoutMS }
  { svc := setA svc newId { cfg := cfg, mgr := some mgr }
    id := newId
    err := none
    devtoolsCalls := [] }

/-- StopSession: unknown sessions are an error; otherwise the session is
removed (the disable/detach/close side effects live on the CDP side). -/
def stopSession (svc : SvcState) (id : String) : Except String SvcState :=
  match lookupA svc id with
  | none => Except.error "cdpnetool: session not found"
  | some _ => Except.ok (eraseA svc id)

/-- Service.AttachTarget: unknown sessions are an error; otherwise the result
is the manager attach outcome (an oracle here). -/
def attachTarget (svc : SvcState) (id : String) (attachErr : Option String) :
    Except String Unit :=
  match lookupA svc id with
  | none => Except.error "cdpnetool: session not found"
  | some _ =>
    match attachErr with
    | some e => Except.error e
    | none => Except.ok ()

/-- Service.ListTargets: unknown sessions are an error; otherwise the manager
answers (an oracle here). -/
def listTargets (svc : SvcState) (id : String)
    (res : Except String (List String)) : Except String (List String) :=
  match lookupA svc id with
  | none => Except.error "cdpnetool: session not found"
  | some _ => res

/-- Engine statistics as the service reports them; byRule distinguishes the
Go nil map (none) from an allocated empty map (some []). -/
structure EngineStatsG where
  total : Int := 0
  matched : Int := 0
  byRule : Option (List (String × Int)) := none

/-- Manager.GetStats: a nil engine yields zero stats with a fresh empty map;
otherwise Engine.Stats copies the counters into a fresh map. -/
def mgrGetStats (m : MgrRec) : EngineStatsG :=
  match m.engine with
  | none => { total := 0, matched := 0, byRule := some [] }
  | some e => { total := e.total, matched := e.matched, byRule := some e.byRule }

/-- The found-session half of GetRuleStats: an unbound manager yields zero
stats with an empty non-nil byRule map. -/
def getRuleStatsOfSession (s : SessionRec) : EngineStatsG × Option String :=
  match s.mgr with
  | none => ({ total := 0, matched := 0, byRule := some [] }, none)
  | some m => (mgrGetStats m, none)

/-- GetRuleStats: never an error; an unknown session or an unbound manager
yields zero stats with an empty non-nil byRule map. -/
def getRuleStats (svc : SvcState) (id : String) : EngineStatsG × Option String :=
  match lookupA svc id with
  | none => ({ total := 0, matched := 0, byRule := some [] }, none)
  | some s => getRuleStatsOfSession s

/-! ## C8: StartSession does not validate the DevTools endpoint -/

def cfgC8 : SessionConfig := { devToolsURL := "http://unreachable.invalid:9222" }

/-- C8 counterexample: starting a session against an arbitrary (unreachable)
endpoint issues zero DevTools calls, reports no error, and registers the
session, refuting the claimed pre-registration target-list probe with its 3 s
timeout and failure path. -/
theorem c8_counterexample :
    (startSession [] cfgC8 "sid-1").devtoolsCalls = [] ∧
    (startSession [] cfgC8 "sid-1").err = none ∧
    (lookupA (startSession [] cfgC8 "sid-1").svc "sid-1").isSome = true := by
  refine ⟨rfl, rfl, rfl⟩

/-- C8 (amended): StartSession performs no DevTools round-trip and cannot
fail: it fills in defaults, registers the session under the fresh id, leaves
every other session untouched, and returns a nil error. -/
theorem c8_no_endpoint_validation (svc : SvcState) (cfg : SessionConfig) (newId : String) :
    (startSession svc cfg newId).devtoolsCalls = [] ∧
    (startSession svc cfg newId).err = none ∧
    lookupA (startSession svc cfg newId).svc newId =
      some { cfg := applyDefaults cfg,
             mgr := some { engine := none, workers := (applyDefaults cfg).concurrency,
                           bodySizeThreshold := (applyDefaults cfg).bodySizeThreshold,
                           processTimeoutMS := (applyDefaults cfg).processTimeoutMS } } ∧
    ∀ k, k ≠ newId → lookupA (startSession svc cfg newId).svc k = lookupA svc k := by
  refine ⟨rfl, rfl, lookupA_setA_self svc newId _, ?_⟩
  intro k hk
  exact lookupA_setA_ne svc (fun h => hk h.symm) _

/-- C8 witness. -/
theorem c8_no_endpoint_validation_witness :
    lookupA (startSession [] cfgC8 "sid-9").svc "other" = none :=
  (c8_no_endpoint_validation [] cfgC8 "sid-9").2.2.2 "other" (by decide)

/-! ## C9: the effective default body-size threshold -/

def cfgC9 : SessionConfig := { devToolsURL := "http://h:9222", bodySizeThreshold := 0 }

/-- C9 counterexample: with the threshold unset, StartSession installs
1 MiB — not 4 MiB — and an eligible 2 MiB response is not fetched even though
it is far below 4 MiB (shouldGetBody would fetch it under a 4 MiB
threshold). -/
theorem c9_counterexample :
    (applyDefaults cfgC9).bodySizeThreshold = 1048576 ∧
    ((1048576 : Int) = 4194304 → False) ∧
    shouldGetBody "text/html" 2097152 (applyDefaults cfgC9).bodySizeThreshold = false ∧
    shouldGetBody "text/html" 2097152 4194304 = true := by
  refine ⟨rfl, by decide, rfl, rfl⟩

/-- C9 (amended): for a config with a non-positive bodySizeThreshold the
effective threshold installed by StartSession is 1 MiB; a response whose known
Content-Length exceeds 1 MiB is not fetched, and one at or below 1 MiB with a
textual or JSON content type is. (shouldGetBody keeps its own 4 MiB fallback
for non-positive thresholds, but StartSession never lets one through.) -/
theorem c9_default_threshold (cfg : SessionConfig) (h : cfg.bodySizeThreshold ≤ 0) :
    (applyDefaults cfg).bodySizeThreshold = 1048576 ∧
    (∀ ctype clen, 1048576 < clen →
      shouldGetBody ctype clen (applyDefaults cfg).bodySizeThreshold = false) ∧
    (∀ ctype clen, clen ≤ 1048576 →
      (startsWithS (lowerS ctype) "text/" || startsWithS (lowerS ctype) "application/json") = true →
      shouldGetBody ctype clen (applyDefaults cfg).bodySizeThreshold = true) := by
  have hthr : (applyDefaults cfg).bodySizeThreshold = 1048576 := by
    unfold applyDefaults
    by_cases h1 : cfg.concurrency ≤ 0 <;>
      simp [h1, h] <;> (repeat' split) <;> simp_all
  refine ⟨hthr, ?_, ?_⟩
  · intro ctype clen hlt
    rw [hthr]
    unfold shouldGetBody
    have hpos : ¬ ((1048576 : Int) ≤ 0) := by decide
    rw [if_neg hpos, if_pos ⟨by omega, hlt⟩]
  · intro ctype clen hle heligible
    rw [hthr]
    unfold shouldGetBody
    have hpos : ¬ ((1048576 : Int) ≤ 0) := by decide
    rw [if_neg hpos, if_neg (by omega)]
    rcases Bool.or_eq_true_iff.mp heligible with ht | hj
    · simp [ht]
    · by_cases ht2 : startsWithS (lowerS ctype) "text/" = true <;> simp [ht2, hj]

/-- C9 witness. -/
theorem c9_default_threshold_witness :
    shouldGetBody "text/html" 2097152 (applyDefaults cfgC9).bodySizeThreshold = false :=
  (c9_default_threshold cfgC9 (by decide)).2.1 "text/html" 2097152 (by decide)

/-! ## C10: GetRuleStats never fails -/

/-- C10: GetRuleStats returns a nil error for every session id; an unknown
session, or one whose manager was never bound, yields zero-valued stats with
an allocated empty byRule map, while StopSession, AttachTarget and
ListTargets answer the same unknown id with the session-not-found error. -/
theorem c10_getRuleStats_total (svc : SvcState) (id : String) :
    (getRuleStats svc id).2 = none ∧
    (lookupA svc id = none →
      (getRuleStats svc id).1 = { total := 0, matched := 0, byRule := some [] }) ∧
    (∀ s, lookupA svc id = some s → s.mgr = none →
      (getRuleStats svc id).1 = { total := 0, matched := 0, byRule := some [] }) ∧
    (lookupA svc id = none →
      stopSession svc id = Except.error "cdpnetool: session not found" ∧
      (∀ aerr, attachTarget svc id aerr = Except.error "cdpnetool: session not found") ∧
      (∀ res, listTargets svc id res = Except.error "cdpnetool: session not found")) := by
  refine ⟨?_, ?_, ?_, ?_⟩
  · have herr : ∀ s, (getRuleStatsOfSession s).2 = none := by
      intro s
      unfold getRuleStatsOfSession
      cases hm : s.mgr with
      | none => rfl
      | some m => rfl
    unfold getRuleStats
    cases hl : lookupA svc id with
    | none => rfl
    | some s => exact herr s
  · intro hnone
    unfold getRuleStats
    rw [hnone]
  · intro s hs hmgr
    unfold getRuleStats
    rw [hs]
    show (getRuleStatsOfSession s).1 = _
    unfold getRuleStatsOfSession
    rw [hmgr]
  · intro hnone
    refine ⟨?_, ?_, ?_⟩
    · unfold stopSession
      rw [hnone]
    · intro aerr
      unfold attachTarget
      rw [hnone]
    · intro res
      unfold listTargets
      rw [hnone]

/-- C10 witness: the theorem applied to the empty session map. -/
theorem c10_getRuleStats_total_witness :
    (getRuleStats [] "nope").1 = { total := 0, matched := 0, byRule := some [] } ∧
    stopSession [] "nope" = Except.error "cdpnetool: session not found" :=
  have h := c10_getRuleStats_total [] "nope"
  ⟨h.2.1 rfl, (h.2.2.2 rfl).1⟩


end Cdpnetool
